import Mathlib

/-!
Verification of the RAG system (`rag_system.py`) against its design
specification.  Python strings are modelled as lists of characters
(`Str`), Python lists as Lean lists, and the fallible network and store
collaborators as explicit parameters or outcome values.  Distances are
modelled as rationals (the Python floats never matter for the properties
proved here beyond their ordering and exact small-value arithmetic).
Definitions come first, then the theorems about them.
-/

/-- A Python string: a sequence of characters. -/
abbrev Str := List Char

/-- Shorthand turning a Lean string literal into the `Str` model. -/
def lit (s : String) : Str := s.data

/-- Characters removed by Python's `str.strip()` (ASCII whitespace;
the unicode spaces Python also strips do not occur in this code base). -/
def isPySpace (c : Char) : Bool :=
  c = ' ' || c = '\t' || c = '\n' || c = '\r' || c = '\x0b' || c = '\x0c'

/-- Python `s.strip()`. -/
def pyStrip (s : Str) : Str :=
  ((s.dropWhile isPySpace).reverse.dropWhile isPySpace).reverse

/-- The sentence separators of `re.split(r'[。！？\n]+', text)`
(`rag_system.py` line 240). -/
def isSentSep (c : Char) : Bool :=
  c = '。' || c = '！' || c = '？' || c = '\n'

/-- Worker for `re.split(r'[。！？\n]+', text)`: a run of one or more
separator characters closes the current segment; the flag records
whether the previous character was a separator (so a run produces a
single boundary).  `acc` holds the current segment reversed. -/
def splitRunsAux : Bool → List Char → List Char → List Str
  | _, acc, [] => [acc.reverse]
  | prevSep, acc, c :: rest =>
    if isSentSep c then
      if prevSep then splitRunsAux true [] rest
      else acc.reverse :: splitRunsAux true [] rest
    else splitRunsAux false (c :: acc) rest

/-- Model of `re.split(r'[。！？\n]+', text)` (`rag_system.py` line 240). -/
def splitSentencesRe (text : Str) : List Str :=
  splitRunsAux false [] text

/-- Python `s[-k:]` for a non-negative `k`: the last `k` characters,
except that `k = 0` yields the whole string (`s[-0:] = s[0:]`). -/
def pyTailSlice (s : Str) (k : Nat) : Str :=
  if k = 0 then s else s.drop (s.length - k)

/-- Model of `current_chunk[-chunk_overlap:] if len(current_chunk) > chunk_overlap
else current_chunk` (`rag_system.py` line 254). -/
def overlap_text (current : Str) (chunk_overlap : Nat) : Str :=
  if current.length > chunk_overlap then pyTailSlice current chunk_overlap
  else current

/-- The period re-appended to accumulated sentences (`rag_system.py`
line 257). -/
def periodStr : Str := ['。']

/-- The `for sentence in sentences` loop of `RAGSystem.split_text`
(`rag_system.py` lines 245-261), with the running state (`chunks`,
`current_chunk`) made explicit, followed by the final flush. -/
def splitLoop (chunk_size chunk_overlap : Nat) :
    List Str → List Str → Str → List Str
  | [], chunks, current =>
    if current.isEmpty then chunks else chunks ++ [current]
  | s :: rest, chunks, current =>
    let sentence := pyStrip s
    if sentence.isEmpty then
      splitLoop chunk_size chunk_overlap rest chunks current
    else if current.length + sentence.length > chunk_size ∧ ¬ current.isEmpty then
      splitLoop chunk_size chunk_overlap rest (chunks ++ [current])
        (overlap_text current chunk_overlap ++ sentence)
    else
      splitLoop chunk_size chunk_overlap rest chunks
        (current ++ sentence ++ periodStr)

/-- Model of `RAGSystem.split_text` (`rag_system.py` lines 237-263). -/
def split_text (text : Str) (chunk_size : Nat := 1000)
    (chunk_overlap : Nat := 200) : List Str :=
  splitLoop chunk_size chunk_overlap (splitSentencesRe text) [] []

/-- The trailing `k` characters of a string (the whole string when it is
shorter than `k`) — the overlap fragment named by the specification. -/
def lastChars (s : Str) (k : Nat) : Str := s.drop (s.length - k)

/-- Model of `os.path.basename`: the final path component. -/
def basename (p : Str) : Str :=
  (p.reverse.takeWhile (fun c => c ≠ '/')).reverse

/-- Decimal rendering of a natural number, as in Python string
interpolation. -/
def natStr (n : Nat) : Str := (Nat.repr n).data

/-- Model of the id format of `rag_system.py` line 201,
taking the 0-based position `i` of the chunk. -/
def mkChunkId (filename : Str) (i : Nat) : Str :=
  filename ++ lit "#chunk-" ++ natStr (i + 1)

/-- The metadata stored with each chunk (`rag_system.py` lines 215-220). -/
structure ChunkMetadata where
  source : Str
  chunk_id : Str
  chunk_index : Nat
  file_path : Str
deriving DecidableEq

/-- One record of the chroma collection: id, document text, embedding and
metadata (`collection.add`, `rag_system.py` lines 223-228). -/
structure StoreEntry where
  id : Str
  document : Str
  embedding : List ℚ
  metadata : ChunkMetadata
deriving DecidableEq

/-- The persistent collection, in insertion order. -/
abbrev Store := List StoreEntry

/-- The duplicate check `collection.get(ids=[chunk_id])` followed by the
`if existing['ids']` test (`rag_system.py` lines 204-209). -/
def hasId (store : Store) (cid : Str) : Bool :=
  store.any (fun e => e.id = cid)

/-- The `for i, chunk in enumerate(chunks)` loop of
`RAGSystem.process_document` (`rag_system.py` lines 197-229): skip blank
chunks, skip chunk ids already present, otherwise embed and append the
entry, counting only actual insertions. -/
def addChunkLoop (encode : Str → List ℚ) (filename file_path : Str) :
    List (Nat × Str) → Store → Nat → Nat × Store
  | [], store, acc => (acc, store)
  | (i, chunk) :: rest, store, acc =>
    if (pyStrip chunk).isEmpty then
      addChunkLoop encode filename file_path rest store acc
    else
      let chunk_id := mkChunkId filename i
      if hasId store chunk_id then
        addChunkLoop encode filename file_path rest store acc
      else
        addChunkLoop encode filename file_path rest
          (store ++ [⟨chunk_id, chunk, encode chunk,
            ⟨filename, chunk_id, i, file_path⟩⟩]) (acc + 1)

/-- Model of `RAGSystem.process_document` (`rag_system.py` lines 176-235): the file
content is passed in (the file read is outside the model), the embedding
model is the `encode` parameter, and the collection is threaded
explicitly; returns `chunks_added` and the updated collection. -/
def process_document (encode : Str → List ℚ) (file_path content : Str)
    (store : Store) : Nat × Store :=
  if (pyStrip content).isEmpty then (0, store)
  else
    let filename := basename file_path
    let chunks := split_text content 1000 200
    if chunks.isEmpty then (0, store)
    else addChunkLoop encode filename file_path chunks.enum store 0

/-- The entry created by ingesting `doc1.txt` with content `"hello"`. -/
def doc1Entry : StoreEntry :=
  ⟨lit "doc1.txt#chunk-1", lit "hello。", [],
    ⟨lit "doc1.txt", lit "doc1.txt#chunk-1", 0, lit "doc1.txt"⟩⟩

/-- A formatted search result (`rag_system.py` lines 290-296). -/
structure SearchResult where
  content : Str
  metadata : ChunkMetadata
  distance : ℚ
  source : Str
deriving DecidableEq

/-- Modelled from the spec: the chroma `collection.query` collaborator is
not part of this repository; §4.2 of the specification contracts it to
return the stored entries ascending by distance to the query embedding,
truncated to `n_results`.  The distance metric is the `dist` parameter. -/
def collectionQuery (dist : List ℚ → List ℚ → ℚ) (store : Store)
    (query_embedding : List ℚ) (n_results : Nat) : List StoreEntry :=
  (List.insertionSort
    (fun a b =>
      dist query_embedding a.embedding ≤ dist query_embedding b.embedding)
    store).take n_results

/-- Model of `RAGSystem.search_similar_documents` (`rag_system.py` lines 265-303):
empty-collection guard, query embedding, store query with `n_results`
clamped to the collection size, and result formatting. -/
def search_similar_documents (encode : Str → List ℚ)
    (dist : List ℚ → List ℚ → ℚ) (store : Store) (query : Str)
    (n_results : Nat := 3) : List SearchResult :=
  if store.length = 0 then []
  else
    let query_embedding := encode query
    let raw := collectionQuery dist store query_embedding
      (min n_results store.length)
    raw.map (fun e =>
      ⟨e.document, e.metadata, dist query_embedding e.embedding,
        e.metadata.source⟩)

/-- A two-entry collection used as concrete input for witnesses. -/
def demoStore : Store :=
  [⟨lit "a.txt#chunk-1", lit "alpha。", [1], ⟨lit "a.txt", lit "a.txt#chunk-1", 0, lit "a.txt"⟩⟩,
   ⟨lit "b.txt#chunk-1", lit "beta。", [2], ⟨lit "b.txt", lit "b.txt#chunk-1", 0, lit "b.txt"⟩⟩]

/-- Round a rational to the nearest integer, `⌊q + 1/2⌋`, computed on
numerator and denominator so that it evaluates inside the kernel. -/
def roundRat (q : ℚ) : ℤ := Int.fdiv (2 * q.num + q.den) (2 * q.den)

/-- Model of the similarity formatting to three decimal places: the rational, scaled by 1000
and rounded to the nearest integer, rendered with exactly three decimals.
(Python formats the nearest binary double; exact decimal ties cannot
arise from those values, and no claim depends on the tie direction.) -/
def format3 (q : ℚ) : Str :=
  let n : ℤ := roundRat (q * 1000)
  let a : Nat := n.natAbs
  let digits := natStr (a / 1000) ++ lit "." ++
    (natStr (a % 1000 / 100) ++ natStr (a % 100 / 10) ++ natStr (a % 10))
  if n < 0 then lit "-" ++ digits else digits

/-- Model of `doc['content'][:300]` plus the truncation marker
(`rag_system.py` line 402). -/
def excerptOf (content : Str) : Str :=
  content.take 300 ++ (if 300 < content.length then lit "..." else [])

/-- One per-result block of the fallback answer (`rag_system.py`
lines 398-404), for 1-based rank `i`. -/
def fallbackBlock (i : Nat) (doc : SearchResult) : Str :=
  lit "\n### " ++ natStr i ++ lit ". " ++ doc.source ++ lit " (類似度: "
    ++ format3 (1 - doc.distance) ++ lit ")\n" ++ excerptOf doc.content
    ++ lit "\n\n"

/-- One citation line (`rag_system.py` line 410). -/
def citeLine (doc : SearchResult) : Str :=
  lit "- " ++ doc.metadata.chunk_id ++ lit "\n"

/-- The leading part of the fallback answer (`rag_system.py`
lines 392-396). -/
def fallbackHeader (query : Str) : Str :=
  lit "## 【検索結果】\n質問: " ++ query ++ lit "\n\n## 【関連情報】\n"

/-- The citation-section heading (`rag_system.py` lines 406-408). -/
def sourcesHeader : Str := lit "\n## 【出典】\n"

/-- The closing instructional note (`rag_system.py` lines 412-413). -/
def fallbackNote : Str :=
  lit "\nℹ️ **より詳細な回答を得るには**: LM Studioを起動してgpt-oss-20bモデルを読み込んでください。"

/-- Model of `RAGSystem.generate_fallback_answer` (`rag_system.py` lines 389-415):
header, one block per result in order (`enumerate(context_docs, 1)`),
citation list, closing note. -/
def generate_fallback_answer (query : Str)
    (context_docs : List SearchResult) : Str :=
  fallbackHeader query
    ++ (context_docs.enum.map (fun p => fallbackBlock (p.1 + 1) p.2)).flatten
    ++ sourcesHeader
    ++ (context_docs.map citeLine).flatten
    ++ fallbackNote

/-- Outcome of the reachability probe `requests.get(".../v1/models",
timeout=2)` (`rag_system.py` line 379): an HTTP status, or an exception
(connection refused, timeout, …; the bare `except` catches them all). -/
inductive ProbeOutcome where
  | response (status : Nat)
  | failure
deriving DecidableEq

/-- Outcome of the generation POST inside `generate_answer`
(`rag_system.py` line 354): an HTTP response carrying its status, raw body
text and the parse of `choices[0].message.content` (`Except.error` holds
the exception text when the body is malformed), or one of the caught
request exceptions. -/
inductive ParsedContent where
  | ok (c : Str)
  | malformed (msg : Str)
deriving DecidableEq

inductive GenOutcome where
  | response (status : Nat) (text : Str) (content : ParsedContent)
  | connectionError
  | timeout
  | failure (msg : Str)
deriving DecidableEq

/-- Model of `RAGSystem.generate_answer` (`rag_system.py` lines 305-367).  The
prompt built from `query` and `context_docs` only feeds the HTTP request,
whose behaviour is the explicit `gen` outcome; every failure is caught
and converted to a human-readable error string — never re-raised. -/
def generate_answer (gen : GenOutcome) (_query : Str)
    (_context_docs : List SearchResult) : Str :=
  match gen with
  | .response status text content =>
    if status = 200 then
      match content with
      | .ok c => c
      | .malformed msg => lit "❌ 回答生成エラー: " ++ msg
    else lit "❌ LM Studio APIエラー: " ++ natStr status ++ lit "\n" ++ text
  | .connectionError =>
    lit "❌ LM Studioに接続できません。LM Studioが起動していることを確認してください。"
  | .timeout => lit "❌ LM Studioからの応答がタイムアウトしました。"
  | .failure msg => lit "❌ 回答生成エラー: " ++ msg

/-- The HTTP requests `query` can issue, in order. -/
inductive NetCall where
  | probe
  | generate
deriving DecidableEq

/-- The apology returned when retrieval finds nothing
(`rag_system.py` line 375). -/
def noResultsMsg : Str :=
  lit "申し訳ございませんが、関連する情報が見つかりませんでした。"

/-- Model of `RAGSystem.query` (`rag_system.py` lines 369-387).  The third
component of the result records which HTTP requests were issued
(the reachability probe, then the generation request when the probe
returned 200). -/
def query (encode : Str → List ℚ) (dist : List ℚ → List ℚ → ℚ)
    (store : Store) (probe : ProbeOutcome) (gen : GenOutcome)
    (question : Str) : Str × List SearchResult × List NetCall :=
  let search_results := search_similar_documents encode dist store question 3
  if search_results.isEmpty then (noResultsMsg, [], [])
  else
    match probe with
    | .response status =>
      if status = 200 then
        (generate_answer gen question search_results, search_results,
          [.probe, .generate])
      else
        (generate_fallback_answer question search_results, search_results,
          [.probe])
    | .failure =>
      (generate_fallback_answer question search_results, search_results,
        [.probe])

/-! ## Theorems -/

example : split_text (lit "abcde") 5 2 = [lit "abcde。"] := by decide

example : split_text (lit "ab。cd") 3 1 = [lit "ab。", lit "。cd"] := by decide

example : split_text (lit "") 5 2 = [] := by decide

example : split_text (lit "abcd。efgh") 5 3 = [lit "abcd。", lit "cd。efgh"] := by
  decide

/-- With a positive overlap parameter, the carried-over overlap text is at
most `chunk_overlap` characters long. -/
lemma overlap_text_length_le (cur : Str) (co : Nat) (hco : 1 ≤ co) :
    (overlap_text cur co).length ≤ co := by
  unfold overlap_text pyTailSlice
  split
  · rw [if_neg (by omega)]
    rw [List.length_drop]
    omega
  · omega

/-- Invariant of the chunking loop: when every sentence fits in
`chunk_size`, every accumulated chunk and the running buffer stay within
`chunk_size + chunk_overlap` characters. -/
lemma splitLoop_size (cs co : Nat) (hco : 1 ≤ co) :
    ∀ (ss : List Str) (chunks : List Str) (cur : Str),
      (∀ s ∈ ss, (pyStrip s).length ≤ cs) →
      (∀ c ∈ chunks, c.length ≤ cs + co) →
      cur.length ≤ cs + co →
      ∀ c ∈ splitLoop cs co ss chunks cur, c.length ≤ cs + co := by
  intro ss
  induction ss with
  | nil =>
    intro chunks cur _ hchunks hcur c hc
    simp only [splitLoop] at hc
    split at hc
    · exact hchunks c hc
    · rcases List.mem_append.1 hc with h | h
      · exact hchunks c h
      · rw [List.mem_singleton] at h
        exact h ▸ hcur
  | cons s rest ih =>
    intro chunks cur hs hchunks hcur c hc
    have hhead : (pyStrip s).length ≤ cs := hs s (List.mem_cons_self s rest)
    have htail : ∀ t ∈ rest, (pyStrip t).length ≤ cs :=
      fun t ht => hs t (List.mem_cons_of_mem s ht)
    simp only [splitLoop] at hc
    split at hc
    · exact ih chunks cur htail hchunks hcur c hc
    · split at hc
      · -- close the chunk and seed the next buffer with the overlap text
        refine ih _ _ htail ?_ ?_ c hc
        · intro d hd
          rcases List.mem_append.1 hd with h | h
          · exact hchunks d h
          · rw [List.mem_singleton] at h
            exact h ▸ hcur
        · have h1 : (overlap_text cur co ++ pyStrip s).length
              = (overlap_text cur co).length + (pyStrip s).length :=
            List.length_append _ _
          have h2 := overlap_text_length_le cur co hco
          omega
      · -- accumulate the sentence, re-terminated with a period
        rename_i hcond
        refine ih chunks _ htail hchunks ?_ c hc
        have hlen : (cur ++ pyStrip s ++ periodStr).length
            = cur.length + (pyStrip s).length + 1 := by
          simp [periodStr]
          omega
        rw [hlen]
        rcases not_and_or.mp hcond with h | h
        · have : cur.length + (pyStrip s).length ≤ cs := by omega
          omega
        · have : cur = [] := by
            rcases cur with _ | ⟨a, t⟩
            · rfl
            · simp [List.isEmpty] at h
          subst this
          simp only [List.length_nil]
          omega

/-- C4 (amended): if every (stripped) sentence of the input fits in
`chunk_size` and the overlap parameter is positive, every chunk produced
by `split_text` is at most `chunk_size + chunk_overlap` characters long. -/
theorem split_text_size_bound (text : Str) (cs co : Nat) (hco : 1 ≤ co)
    (hs : ∀ s ∈ splitSentencesRe text, (pyStrip s).length ≤ cs) :
    ∀ c ∈ split_text text cs co, c.length ≤ cs + co :=
  fun c hc =>
    splitLoop_size cs co hco (splitSentencesRe text) [] [] hs
      (by intro d hd; exact absurd hd (List.not_mem_nil d))
      (by simp) c hc

/-- Witness for `split_text_size_bound` at a concrete input. -/
theorem split_text_size_bound_witness :
    (1 ≤ 1 ∧ ∀ s ∈ splitSentencesRe (lit "a。bb"), (pyStrip s).length ≤ 3) ∧
    ∀ c ∈ split_text (lit "a。bb") 3 1, c.length ≤ 3 + 1 :=
  ⟨⟨by decide, by decide⟩,
    split_text_size_bound (lit "a。bb") 3 1 (by decide) (by decide)⟩

/-- C4 counterexample: the input `"abcde"` with `chunk_size = 5` splits
into a single 5-character sentence, yet the produced chunk `"abcde。"`
has 6 characters — the re-appended period pushes a chunk past
`chunk_size` even though no single sentence exceeds it. -/
theorem split_text_size_bound_cex :
    (lit "abcde。") ∈ split_text (lit "abcde") 5 2 ∧
    ¬ (lit "abcde。").length ≤ 5 ∧
    ((splitSentencesRe (lit "abcde")).map pyStrip).all
      (fun s => decide (s.length ≤ 5)) = true := by
  decide

/-- The chunking loop only ever appends to the accumulated chunk list. -/
lemma splitLoop_append_chunks (cs co : Nat) :
    ∀ (ss : List Str) (chunks : List Str) (cur : Str),
      splitLoop cs co ss chunks cur = chunks ++ splitLoop cs co ss [] cur := by
  intro ss
  induction ss with
  | nil =>
    intro chunks cur
    simp only [splitLoop]
    split <;> simp
  | cons s rest ih =>
    intro chunks cur
    simp only [splitLoop]
    split
    · exact ih chunks cur
    · split
      · simp only [List.nil_append]
        rw [ih (chunks ++ [cur]), ih [cur], List.append_assoc]
      · exact ih chunks (cur ++ pyStrip s ++ periodStr)

/-- Invariant: as long as no chunk has been closed, the running buffer is
either empty or ends with the re-appended period, so the head chunk of the
final result ends with `'。'`. -/
lemma splitLoop_head_period (cs co : Nat) :
    ∀ (ss : List Str) (chunks : List Str) (cur : Str),
      (chunks = [] → cur = [] ∨ cur.getLast? = some '。') →
      (∀ c, chunks.head? = some c → c.getLast? = some '。') →
      ∀ c, (splitLoop cs co ss chunks cur).head? = some c →
        c.getLast? = some '。' := by
  intro ss
  induction ss with
  | nil =>
    intro chunks cur hinit hhead c hc
    simp only [splitLoop] at hc
    split at hc
    · exact hhead c hc
    · rename_i hcur
      rcases chunks with _ | ⟨d, ds⟩
      · simp only [List.nil_append, List.head?] at hc
        rcases hinit rfl with h | h
        · rw [h] at hcur
          simp at hcur
        · cases hc
          exact h
      · simp only [List.cons_append, List.head?_cons] at hc
        exact hhead c (by rw [List.head?_cons, hc])
  | cons s rest ih =>
    intro chunks cur hinit hhead c hc
    simp only [splitLoop] at hc
    split at hc
    · exact ih chunks cur hinit hhead c hc
    · split at hc
      · rename_i hcond
        refine ih _ _ (fun hne => absurd hne (by simp)) ?_ c hc
        intro d hd
        rcases chunks with _ | ⟨e, es⟩
        · simp only [List.nil_append, List.head?_cons] at hd
          cases hd
          rcases hinit rfl with h | h
          · rw [h] at hcond
            simp at hcond
          · exact h
        · simp only [List.cons_append, List.head?_cons] at hd
          exact hhead d (by rw [List.head?_cons, hd])
      · refine ih chunks _ ?_ hhead c hc
        intro hne
        right
        exact List.getLast?_concat _

/-- C5 (amended): a chunk built purely by sentence accumulation — in
particular the head chunk, which starts from the empty buffer and is never
seeded with overlap text — always ends with the re-appended period. -/
theorem split_text_head_chunk_period (text : Str) (cs co : Nat) (c : Str)
    (h : (split_text text cs co).head? = some c) : c.getLast? = some '。' :=
  splitLoop_head_period cs co (splitSentencesRe text) [] []
    (fun _ => Or.inl rfl)
    (fun d hd => by simp at hd) c h

/-- Witness for `split_text_head_chunk_period` at a concrete input. -/
theorem split_text_head_chunk_period_witness :
    (split_text (lit "ab") 10 2).head? = some (lit "ab。") ∧
    (lit "ab。").getLast? = some '。' :=
  ⟨by decide, split_text_head_chunk_period (lit "ab") 10 2 (lit "ab。") (by decide)⟩

/-- C5 counterexample: for `"ab。cd"` with `chunk_size = 3`,
`chunk_overlap = 1`, the sentence `"cd"` seeds the second buffer after the
first chunk closes (`rag_system.py` line 255) and is *not* re-terminated:
the second chunk is `"。cd"`, not `"。cd。"` — it does not end with a
period, contradicting "including the sentence that seeds a new buffer". -/
theorem split_text_reseed_period_cex :
    split_text (lit "ab。cd") 3 1 = [lit "ab。", lit "。cd"] ∧
    (lit "。cd").getLast? ≠ some '。' := by
  decide

/-- The trailing overlap characters of the closed chunk are a prefix of
the freshly seeded buffer. -/
lemma lastChars_isPrefix_seed (cur s : Str) (co : Nat) :
    lastChars cur co <+: overlap_text cur co ++ s := by
  unfold lastChars overlap_text pyTailSlice
  by_cases h0 : co = 0
  · subst h0
    simp
  · rw [if_neg h0]
    split
    · exact List.prefix_append _ _
    · rename_i hle
      have h1 : cur.length - co = 0 := by omega
      rw [h1, List.drop_zero]
      exact List.prefix_append _ _

/-- A prefix of a buffer remains a prefix as the buffer grows at its end. -/
lemma isPrefix_of_append_right {p b t : Str} (h : p <+: b) : p <+: b ++ t :=
  h.trans (List.prefix_append b t)

/-- Invariant of the chunking loop for the overlap property: adjacent
chunks of the accumulated state (with the running buffer as the would-be
final chunk) are always linked by the overlap relation. -/
lemma splitLoop_overlap_chain (cs co : Nat) :
    ∀ (ss chunks : List Str) (cur : Str),
      (cur.isEmpty → chunks = []) →
      List.Chain' (fun a b => lastChars a co <+: b)
        (chunks ++ if cur.isEmpty then [] else [cur]) →
      List.Chain' (fun a b => lastChars a co <+: b)
        (splitLoop cs co ss chunks cur) := by
  intro ss
  induction ss with
  | nil =>
    intro chunks cur hemp hch
    simp only [splitLoop]
    split
    · rename_i h
      rw [h] at hch
      simpa using hch
    · rename_i h
      rw [if_neg h] at hch
      exact hch
  | cons s rest ih =>
    intro chunks cur hemp hch
    simp only [splitLoop]
    split
    · exact ih chunks cur hemp hch
    · split
      · rename_i hcond
        have hcur : ¬ cur.isEmpty := hcond.2
        rw [if_neg hcur] at hch
        have hseed : ¬ (overlap_text cur co ++ pyStrip s).isEmpty := by
          rename_i hsent
          simp only [List.isEmpty_eq_true] at hsent ⊢
          intro hnil
          exact hsent (List.append_eq_nil.mp hnil).2
        refine ih (chunks ++ [cur]) _ (fun h => absurd h hseed) ?_
        rw [if_neg hseed]
        rw [List.chain'_append]
        refine ⟨hch, List.chain'_singleton _, ?_⟩
        intro x hx y hy
        rw [List.getLast?_concat] at hx
        simp only [List.head?_cons, Option.mem_some_iff] at hx hy
        subst hx
        subst hy
        exact lastChars_isPrefix_seed cur (pyStrip s) co
      · have hnew : ¬ (cur ++ pyStrip s ++ periodStr).isEmpty := by
          simp [periodStr]
        refine ih chunks _ (fun h => absurd h hnew) ?_
        rw [if_neg hnew]
        by_cases hcur : cur.isEmpty
        · rw [hemp hcur, List.nil_append]
          exact List.chain'_singleton _
        · rw [if_neg hcur] at hch
          rw [List.chain'_append] at hch ⊢
          refine ⟨hch.1, List.chain'_singleton _, ?_⟩
          intro x hx y hy
          simp only [List.head?_cons, Option.mem_some_iff] at hy
          subst hy
          have := hch.2.2 x hx cur (by simp)
          rw [List.append_assoc]
          exact isPrefix_of_append_right this

/-- C8: for every input and parameters, consecutive chunks produced by
`split_text` satisfy the overlap property — the trailing
`chunk_overlap` characters of chunk *i* (the whole chunk when it is
shorter) are a prefix of chunk *i+1*. -/
theorem split_text_overlap_chain (text : Str) (cs co : Nat) :
    List.Chain' (fun a b => lastChars a co <+: b) (split_text text cs co) :=
  splitLoop_overlap_chain cs co (splitSentencesRe text) [] []
    (fun _ => rfl) (by simp)

example :
    (process_document (fun _ => []) (lit "doc1.txt") (lit "hello") []).2.map
      (fun e => e.id) = [lit "doc1.txt#chunk-1"] := by decide

/-- The chunk loop only appends entries: membership is monotone. -/
lemma addChunkLoop_mono (encode : Str → List ℚ) (filename file_path : Str) :
    ∀ (ps : List (Nat × Str)) (store : Store) (acc : Nat) (e : StoreEntry),
      e ∈ store →
      e ∈ (addChunkLoop encode filename file_path ps store acc).2 := by
  intro ps
  induction ps with
  | nil => intro store acc e he; exact he
  | cons p rest ih =>
    rcases p with ⟨i, chunk⟩
    intro store acc e he
    simp only [addChunkLoop]
    split
    · exact ih store acc e he
    · split
      · exact ih store acc e he
      · exact ih _ _ e (List.mem_append_left _ he)

/-- Id presence is monotone through the chunk loop. -/
lemma addChunkLoop_hasId_mono (encode : Str → List ℚ)
    (filename file_path : Str) :
    ∀ (ps : List (Nat × Str)) (store : Store) (acc : Nat) (cid : Str),
      hasId store cid →
      hasId (addChunkLoop encode filename file_path ps store acc).2 cid := by
  intro ps store acc cid h
  rw [hasId, List.any_eq_true] at h
  rcases h with ⟨e, he, hid⟩
  rw [hasId, List.any_eq_true]
  exact ⟨e, addChunkLoop_mono encode filename file_path ps store acc e he, hid⟩

/-- After the chunk loop runs, every non-blank chunk of its worklist has
its id present in the resulting collection. -/
lemma addChunkLoop_covers (encode : Str → List ℚ)
    (filename file_path : Str) :
    ∀ (ps : List (Nat × Str)) (store : Store) (acc : Nat),
      ∀ p ∈ ps, ¬ (pyStrip p.2).isEmpty →
        hasId (addChunkLoop encode filename file_path ps store acc).2
          (mkChunkId filename p.1) := by
  intro ps
  induction ps with
  | nil => intro store acc p hp; exact absurd hp (List.not_mem_nil p)
  | cons q rest ih =>
    rcases q with ⟨i, chunk⟩
    intro store acc p hp hblank
    rcases List.mem_cons.mp hp with h | h
    · subst h
      simp only [addChunkLoop]
      rw [if_neg (by simpa using hblank)]
      split
      · rename_i hpresent
        exact addChunkLoop_hasId_mono encode filename file_path rest store acc
          _ hpresent
      · refine addChunkLoop_hasId_mono encode filename file_path rest _ _ _ ?_
        rw [hasId, List.any_eq_true]
        refine ⟨_, List.mem_append_right _ (List.mem_singleton_self _), ?_⟩
        simp
    · simp only [addChunkLoop]
      split
      · exact ih store acc p h hblank
      · split
        · exact ih store acc p h hblank
        · exact ih _ _ p h hblank

/-- If every non-blank chunk of the worklist is already present, the loop
is a no-op: nothing is inserted and the collection is unchanged. -/
lemma addChunkLoop_noop (encode : Str → List ℚ)
    (filename file_path : Str) :
    ∀ (ps : List (Nat × Str)) (store : Store) (acc : Nat),
      (∀ p ∈ ps, ¬ (pyStrip p.2).isEmpty → hasId store (mkChunkId filename p.1)) →
      addChunkLoop encode filename file_path ps store acc = (acc, store) := by
  intro ps
  induction ps with
  | nil => intro store acc _; rfl
  | cons q rest ih =>
    rcases q with ⟨i, chunk⟩
    intro store acc hall
    simp only [addChunkLoop]
    split
    · exact ih store acc (fun p hp => hall p (List.mem_cons_of_mem _ hp))
    · rename_i hblank
      rw [if_pos (hall ⟨i, chunk⟩ (List.mem_cons_self _ _) (by simpa using hblank))]
      exact ih store acc (fun p hp => hall p (List.mem_cons_of_mem _ hp))

/-- C1: ingestion is idempotent.  Re-processing the same document against
the collection produced by a first pass inserts nothing: the second pass
returns `chunks_added = 0` and leaves the collection unchanged. -/
theorem process_document_idempotent (encode : Str → List ℚ)
    (file_path content : Str) (s0 : Store) :
    (process_document encode file_path content
        (process_document encode file_path content s0).2).1 = 0 ∧
    (process_document encode file_path content
        (process_document encode file_path content s0).2).2 =
      (process_document encode file_path content s0).2 := by
  by_cases hc : (pyStrip content).isEmpty
  · simp [process_document, hc]
  · by_cases hch : (split_text content 1000 200).isEmpty
    · simp [process_document, hc, hch]
    · have h1 : process_document encode file_path content s0 =
          addChunkLoop encode (basename file_path) file_path
            (split_text content 1000 200).enum s0 0 := by
        simp [process_document, hc, hch]
      have hcover : ∀ p ∈ (split_text content 1000 200).enum,
          ¬ (pyStrip p.2).isEmpty →
          hasId (process_document encode file_path content s0).2
            (mkChunkId (basename file_path) p.1) := by
        intro p hp hb
        rw [h1]
        exact addChunkLoop_covers encode (basename file_path) file_path
          (split_text content 1000 200).enum s0 0 p hp hb
      have h2 : process_document encode file_path content
          (process_document encode file_path content s0).2 =
          addChunkLoop encode (basename file_path) file_path
            (split_text content 1000 200).enum
            (process_document encode file_path content s0).2 0 := by
        simp [process_document, hc, hch]
      rw [h2, addChunkLoop_noop encode (basename file_path) file_path
        (split_text content 1000 200).enum
        (process_document encode file_path content s0).2 0 hcover]
      exact ⟨rfl, rfl⟩

/-- Every entry the chunk loop adds has the shape built at
`rag_system.py` lines 201-228. -/
lemma addChunkLoop_shape (encode : Str → List ℚ)
    (filename file_path : Str) :
    ∀ (ps : List (Nat × Str)) (store : Store) (acc : Nat) (e : StoreEntry),
      e ∈ (addChunkLoop encode filename file_path ps store acc).2 →
      e ∈ store ∨ ∃ p ∈ ps,
        e = ⟨mkChunkId filename p.1, p.2, encode p.2,
          ⟨filename, mkChunkId filename p.1, p.1, file_path⟩⟩ := by
  intro ps
  induction ps with
  | nil => intro store acc e he; exact Or.inl he
  | cons q rest ih =>
    rcases q with ⟨i, chunk⟩
    intro store acc e he
    simp only [addChunkLoop] at he
    split at he
    · rcases ih store acc e he with h | ⟨p, hp, hshape⟩
      · exact Or.inl h
      · exact Or.inr ⟨p, List.mem_cons_of_mem _ hp, hshape⟩
    · split at he
      · rcases ih store acc e he with h | ⟨p, hp, hshape⟩
        · exact Or.inl h
        · exact Or.inr ⟨p, List.mem_cons_of_mem _ hp, hshape⟩
      · rcases ih _ _ e he with h | ⟨p, hp, hshape⟩
        · rcases List.mem_append.mp h with h' | h'
          · exact Or.inl h'
          · rw [List.mem_singleton] at h'
            exact Or.inr ⟨⟨i, chunk⟩, List.mem_cons_self _ _, h'⟩
        · exact Or.inr ⟨p, List.mem_cons_of_mem _ hp, hshape⟩

/-- C2 (amended): every entry newly stored by `process_document` carries
the *full* filename (extension included) as its `source`, its id is
`"{filename}#chunk-{chunk_index+1}"` built from that full filename, the
metadata `chunk_id` equals the stored id, and `file_path` is recorded
verbatim. -/
theorem process_document_metadata (encode : Str → List ℚ)
    (file_path content : Str) (s0 : Store) (e : StoreEntry)
    (he : e ∈ (process_document encode file_path content s0).2)
    (hnew : e ∉ s0) :
    e.metadata.source = basename file_path ∧
    e.id = mkChunkId (basename file_path) e.metadata.chunk_index ∧
    e.metadata.chunk_id = e.id ∧
    e.metadata.file_path = file_path := by
  by_cases hc : (pyStrip content).isEmpty
  · rw [process_document, if_pos hc] at he
    exact absurd he hnew
  · by_cases hch : (split_text content 1000 200).isEmpty
    · have : (process_document encode file_path content s0).2 = s0 := by
        simp [process_document, hc, hch]
      rw [this] at he
      exact absurd he hnew
    · have h1 : (process_document encode file_path content s0).2 =
          (addChunkLoop encode (basename file_path) file_path
            (split_text content 1000 200).enum s0 0).2 := by
        simp [process_document, hc, hch]
      rw [h1] at he
      rcases addChunkLoop_shape encode (basename file_path) file_path
          (split_text content 1000 200).enum s0 0 e he with h | ⟨p, _, hshape⟩
      · exact absurd h hnew
      · subst hshape
        exact ⟨rfl, rfl, rfl, rfl⟩

/-- Witness for `process_document_metadata` at a concrete input. -/
theorem process_document_metadata_witness :
    (doc1Entry ∈ (process_document (fun _ => []) (lit "doc1.txt")
        (lit "hello") []).2 ∧ doc1Entry ∉ ([] : Store)) ∧
    (doc1Entry.metadata.source = basename (lit "doc1.txt") ∧
      doc1Entry.id = mkChunkId (basename (lit "doc1.txt"))
        doc1Entry.metadata.chunk_index ∧
      doc1Entry.metadata.chunk_id = doc1Entry.id ∧
      doc1Entry.metadata.file_path = lit "doc1.txt") :=
  ⟨⟨by decide, by decide⟩,
    process_document_metadata (fun _ => []) (lit "doc1.txt") (lit "hello") []
      doc1Entry (by decide) (by decide)⟩

/-- C2 counterexample: ingesting `doc1.txt` stores `source = "doc1.txt"`
and `chunk_id = "doc1.txt#chunk-1"` — the extension is *not* stripped
(`rag_system.py` line 187 uses `os.path.basename` only), contradicting
`source == "doc1"` and `chunk_id == "doc1#chunk-1"`. -/
theorem process_document_source_cex :
    (process_document (fun _ => []) (lit "doc1.txt") (lit "hello") []).2.map
        (fun e => e.metadata.source) = [lit "doc1.txt"] ∧
    lit "doc1.txt" ≠ lit "doc1" ∧
    (process_document (fun _ => []) (lit "doc1.txt") (lit "hello") []).2.map
        (fun e => e.id) = [lit "doc1.txt#chunk-1"] ∧
    lit "doc1.txt#chunk-1" ≠ lit "doc1#chunk-1" := by
  decide

/-- C6: on a non-empty collection, search results are non-decreasing in
distance and there are exactly `min k (collection size)` of them. -/
theorem search_similar_documents_ordering (encode : Str → List ℚ)
    (dist : List ℚ → List ℚ → ℚ) (store : Store) (q : Str) (k : Nat)
    (h : store ≠ []) :
    List.Sorted (fun a b : SearchResult => a.distance ≤ b.distance)
      (search_similar_documents encode dist store q k) ∧
    (search_similar_documents encode dist store q k).length
      = min k store.length := by
  have hlen : ¬ store.length = 0 := by
    simpa [List.length_eq_zero] using h
  unfold search_similar_documents
  rw [if_neg hlen]
  constructor
  · rw [List.Sorted, List.pairwise_map]
    have hsorted :
        List.Pairwise (fun a b : StoreEntry =>
          dist (encode q) a.embedding ≤ dist (encode q) b.embedding)
          (List.insertionSort (fun a b =>
            dist (encode q) a.embedding ≤ dist (encode q) b.embedding)
            store) := by
      haveI : IsTotal StoreEntry (fun a b =>
          dist (encode q) a.embedding ≤ dist (encode q) b.embedding) :=
        ⟨fun a b => le_total _ _⟩
      haveI : IsTrans StoreEntry (fun a b =>
          dist (encode q) a.embedding ≤ dist (encode q) b.embedding) :=
        ⟨fun a b c hab hbc => le_trans hab hbc⟩
      exact List.sorted_insertionSort _ store
    exact hsorted.sublist (List.take_sublist _ _)
  · rw [List.length_map, collectionQuery, List.length_take,
      List.length_insertionSort]
    omega

/-- Witness for `search_similar_documents_ordering` at a concrete input. -/
theorem search_similar_documents_ordering_witness :
    demoStore ≠ [] ∧
    (List.Sorted (fun a b : SearchResult => a.distance ≤ b.distance)
      (search_similar_documents (fun _ => [0]) (fun _ v => v.headD 0)
        demoStore (lit "q") 1) ∧
    (search_similar_documents (fun _ => [0]) (fun _ v => v.headD 0)
        demoStore (lit "q") 1).length = min 1 demoStore.length) :=
  ⟨by decide,
    search_similar_documents_ordering (fun _ => [0]) (fun _ v => v.headD 0)
      demoStore (lit "q") 1 (by decide)⟩

/-- C7: for every query string and every `k`, searching an empty
collection returns the empty result list (the guard at `rag_system.py`
lines 269-271; no exception can escape — the model is a total function,
mirroring the catch-all `except` of lines 300-303). -/
theorem search_similar_documents_empty_collection (encode : Str → List ℚ)
    (dist : List ℚ → List ℚ → ℚ) (q : Str) (k : Nat) :
    search_similar_documents encode dist [] q k = [] := rfl

example : format3 1 = lit "1.000" := by
  have h : (1 : ℚ) * 1000 = 1000 := by norm_num
  simp only [format3, h]
  decide

example : format3 (1 - (3 : ℚ) / 2) = lit "-0.500" := by
  have h : (1 - (3 : ℚ) / 2) * 1000 = -500 := by norm_num
  simp only [format3, h]
  decide

/-- C10: when retrieval returns no results, `query` answers with the fixed
apology, an empty result list, and issues no HTTP request at all —
neither the reachability probe nor the generation request. -/
theorem query_no_results (encode : Str → List ℚ)
    (dist : List ℚ → List ℚ → ℚ) (store : Store) (probe : ProbeOutcome)
    (gen : GenOutcome) (question : Str)
    (h : search_similar_documents encode dist store question 3 = []) :
    query encode dist store probe gen question = (noResultsMsg, [], []) := by
  unfold query
  rw [h]
  rfl

/-- Witness for `query_no_results` at a concrete input: the empty
collection. -/
theorem query_no_results_witness :
    search_similar_documents (fun _ => [0]) (fun _ v => v.headD 0) []
        (lit "anything") 3 = [] ∧
    query (fun _ => [0]) (fun _ v => v.headD 0) [] (.response 200)
        .connectionError (lit "anything") = (noResultsMsg, [], []) :=
  ⟨rfl, query_no_results (fun _ => [0]) (fun _ v => v.headD 0) []
    (.response 200) .connectionError (lit "anything") rfl⟩

/-- C3 (amended): the fallback answer is chosen exactly when the
reachability probe fails — raises, or returns a non-200 status.  When the
probe returns 200, the caller receives whatever `generate_answer`
produced, and generation-request failures (non-200, connection error,
timeout, malformed body) surface there as human-readable error strings,
not as the fallback answer; in every case `query` returns normally. -/
theorem query_gen_error_paths (encode : Str → List ℚ)
    (dist : List ℚ → List ℚ → ℚ) (store : Store) (probe : ProbeOutcome)
    (gen : GenOutcome) (question : Str)
    (h : ¬ (search_similar_documents encode dist store question 3).isEmpty) :
    (probe = .failure →
      (query encode dist store probe gen question).1
        = generate_fallback_answer question
            (search_similar_documents encode dist store question 3)) ∧
    (∀ s, probe = .response s → s ≠ 200 →
      (query encode dist store probe gen question).1
        = generate_fallback_answer question
            (search_similar_documents encode dist store question 3)) ∧
    (probe = .response 200 →
      (query encode dist store probe gen question).1
        = generate_answer gen question
            (search_similar_documents encode dist store question 3)) := by
  refine ⟨?_, ?_, ?_⟩
  · intro hp
    subst hp
    simp only [query, if_neg h]
  · intro s hp hs
    subst hp
    simp only [query, if_neg h, if_neg hs]
  · intro hp
    subst hp
    simp only [query, if_neg h, if_true]

/-- Witness for `query_gen_error_paths` at a concrete input. -/
theorem query_gen_error_paths_witness :
    (¬ (search_similar_documents (fun _ => [0]) (fun _ v => v.headD 0)
        demoStore (lit "q") 3).isEmpty) ∧
    ((ProbeOutcome.failure = .failure →
      (query (fun _ => [0]) (fun _ v => v.headD 0) demoStore .failure
          .connectionError (lit "q")).1
        = generate_fallback_answer (lit "q")
            (search_similar_documents (fun _ => [0]) (fun _ v => v.headD 0)
              demoStore (lit "q") 3)) ∧
    (∀ s, ProbeOutcome.failure = .response s → s ≠ 200 →
      (query (fun _ => [0]) (fun _ v => v.headD 0) demoStore .failure
          .connectionError (lit "q")).1
        = generate_fallback_answer (lit "q")
            (search_similar_documents (fun _ => [0]) (fun _ v => v.headD 0)
              demoStore (lit "q") 3)) ∧
    (ProbeOutcome.failure = .response 200 →
      (query (fun _ => [0]) (fun _ v => v.headD 0) demoStore .failure
          .connectionError (lit "q")).1
        = generate_answer .connectionError (lit "q")
            (search_similar_documents (fun _ => [0]) (fun _ v => v.headD 0)
              demoStore (lit "q") 3))) :=
  ⟨by decide,
    query_gen_error_paths (fun _ => [0]) (fun _ v => v.headD 0) demoStore
      .failure .connectionError (lit "q") (by decide)⟩

/-- The fallback answer always starts with the `'#'` of its header. -/
lemma generate_fallback_answer_head (q : Str) (docs : List SearchResult) :
    (generate_fallback_answer q docs).head? = some '#' := by
  have h : lit "## 【検索結果】\n質問: "
      = '#' :: lit "# 【検索結果】\n質問: " := by decide
  simp [generate_fallback_answer, fallbackHeader, h]

/-- C3 counterexample: the probe succeeds (200) but the generation request
itself returns HTTP 500; `query` then returns the error string built by
`generate_answer` (`rag_system.py` line 360), *not* the fallback answer —
contradicting "non-200 on the generation request yields the fallback". -/
theorem query_gen_error_cex :
    (query (fun _ => [0]) (fun _ v => v.headD 0) demoStore (.response 200)
        (.response 500 (lit "Internal Server Error") (.malformed (lit "err")))
        (lit "q")).1
      = lit "❌ LM Studio APIエラー: 500\nInternal Server Error" ∧
    (query (fun _ => [0]) (fun _ v => v.headD 0) demoStore (.response 200)
        (.response 500 (lit "Internal Server Error") (.malformed (lit "err")))
        (lit "q")).1
      ≠ generate_fallback_answer (lit "q")
          (query (fun _ => [0]) (fun _ v => v.headD 0) demoStore
            (.response 200)
            (.response 500 (lit "Internal Server Error")
              (.malformed (lit "err")))
            (lit "q")).2.1 := by
  have h1 : (query (fun _ => [0]) (fun _ v => v.headD 0) demoStore
      (.response 200)
      (.response 500 (lit "Internal Server Error") (.malformed (lit "err")))
      (lit "q")).1
      = lit "❌ LM Studio APIエラー: 500\nInternal Server Error" := by decide
  refine ⟨h1, fun hEq => ?_⟩
  have hhd := congrArg List.head? hEq
  rw [generate_fallback_answer_head, h1] at hhd
  exact absurd hhd (by decide)

/-- C9: whenever the fallback path is taken (the probe raised) with a
non-empty result list, the answer is a non-empty string containing, for
each result in similarity order, its formatted block — 1-based rank,
source name, similarity `1 - distance` to three decimals, and the
truncated excerpt (at most 303 characters including the marker) — plus
each citation line, and it ends with the fixed instructional note; the
model is a total function, so no exception reaches the caller. -/
theorem query_fallback_content (encode : Str → List ℚ)
    (dist : List ℚ → List ℚ → ℚ) (store : Store) (gen : GenOutcome)
    (question : Str)
    (h : ¬ (search_similar_documents encode dist store question 3).isEmpty) :
    (query encode dist store .failure gen question).1 ≠ [] ∧
    (∀ p ∈ (search_similar_documents encode dist store question 3).enum,
      fallbackBlock (p.1 + 1) p.2
        <:+: (query encode dist store .failure gen question).1) ∧
    (∀ d ∈ search_similar_documents encode dist store question 3,
      citeLine d <:+: (query encode dist store .failure gen question).1) ∧
    fallbackNote <:+ (query encode dist store .failure gen question).1 ∧
    (∀ d ∈ search_similar_documents encode dist store question 3,
      (excerptOf d.content).length ≤ 303) := by
  have hans : (query encode dist store .failure gen question).1
      = generate_fallback_answer question
          (search_similar_documents encode dist store question 3) := by
    simp only [query, if_neg h]
  rw [hans]
  refine ⟨?_, ?_, ?_, ?_, ?_⟩
  · intro hnil
    rw [generate_fallback_answer, List.append_eq_nil] at hnil
    exact (by decide : fallbackNote ≠ []) hnil.2
  · intro p hp
    have h1 := List.infix_of_mem_flatten
      (List.mem_map_of_mem (fun p => fallbackBlock (p.1 + 1) p.2) hp)
    refine h1.trans ?_
    rw [generate_fallback_answer]
    exact ⟨fallbackHeader question,
      sourcesHeader
        ++ ((search_similar_documents encode dist store question 3).map
            citeLine).flatten
        ++ fallbackNote,
      by simp⟩
  · intro d hd
    have h1 := List.infix_of_mem_flatten (List.mem_map_of_mem citeLine hd)
    refine h1.trans ?_
    rw [generate_fallback_answer]
    exact ⟨fallbackHeader question
        ++ ((search_similar_documents encode dist store question 3).enum.map
            (fun p => fallbackBlock (p.1 + 1) p.2)).flatten
        ++ sourcesHeader,
      fallbackNote,
      by simp⟩
  · rw [generate_fallback_answer]
    exact List.suffix_append _ _
  · intro d _
    by_cases hlen : 300 < d.content.length
    · have h3 : (lit "...").length = 3 := by decide
      simp only [excerptOf, if_pos hlen, List.length_append, List.length_take,
        h3]
      omega
    · simp only [excerptOf, if_neg hlen, List.length_append, List.length_take,
        List.length_nil]
      omega

/-- Witness for `query_fallback_content` at a concrete input. -/
theorem query_fallback_content_witness :
    (¬ (search_similar_documents (fun _ => [0]) (fun _ v => v.headD 0)
        demoStore (lit "q") 3).isEmpty) ∧
    ((query (fun _ => [0]) (fun _ v => v.headD 0) demoStore .failure
        .connectionError (lit "q")).1 ≠ [] ∧
    (∀ p ∈ (search_similar_documents (fun _ => [0]) (fun _ v => v.headD 0)
        demoStore (lit "q") 3).enum,
      fallbackBlock (p.1 + 1) p.2
        <:+: (query (fun _ => [0]) (fun _ v => v.headD 0) demoStore .failure
          .connectionError (lit "q")).1) ∧
    (∀ d ∈ search_similar_documents (fun _ => [0]) (fun _ v => v.headD 0)
        demoStore (lit "q") 3,
      citeLine d <:+: (query (fun _ => [0]) (fun _ v => v.headD 0) demoStore
        .failure .connectionError (lit "q")).1) ∧
    fallbackNote <:+ (query (fun _ => [0]) (fun _ v => v.headD 0) demoStore
        .failure .connectionError (lit "q")).1 ∧
    (∀ d ∈ search_similar_documents (fun _ => [0]) (fun _ v => v.headD 0)
        demoStore (lit "q") 3,
      (excerptOf d.content).length ≤ 303)) :=
  ⟨by decide,
    query_fallback_content (fun _ => [0]) (fun _ v => v.headD 0) demoStore
      .connectionError (lit "q") (by decide)⟩
